import Mathlib

/-!
Verification development for the movie-search server (`Server.cpp`).

The C++ source is shallowly embedded: pure string manipulation becomes Lean
functions on `String`/`List Char`, the inverted index (an
`unordered_map<string, unordered_set<int>>`) becomes a total function
`String → Finset ℕ` (an absent key and a key mapped to the empty set are
observationally identical in the source, since every present key holds at
least one id and every lookup returns the empty set for absent keys), and
`float` fields become `ℚ` (the only operation the source performs on a rating
is `static_cast<int>` truncation and comparison, both of which `ℚ` models
exactly for the decimal literals the loader parses).  Item identifiers are the
dense positions `0..M-1` assigned by the index-rebuild loop, modelled as `ℕ`.
-/

/-- ASCII space characters recognised by `std::isspace` / `istream >> word`
(space, tab, newline, vertical tab, form feed, carriage return). -/
def isSpaceB (c : Char) : Bool := c.toNat = 32 || (9 ≤ c.toNat && c.toNat ≤ 13)

/-- ASCII decimal digit test. -/
def isDigitB (c : Char) : Bool := 48 ≤ c.toNat && c.toNat ≤ 57

/-- Embedding of `::tolower` on one character under the C locale:
uppercase ASCII letters (65..90) are shifted down by 32, everything else is
returned unchanged. -/
def lowerChar (c : Char) : Char :=
  if 65 ≤ c.toNat && c.toNat ≤ 90 then Char.ofNat (c.toNat + 32) else c

/-- Embedding of `InvertedIndex::toLower`: apply `::tolower` to every
character of the string. -/
def toLower (s : String) : String := ⟨s.data.map lowerChar⟩

/-- The punctuation set of `InvertedIndex::cleanWord`, the literal
characters of the C++ string (space, double quote, and the listed
punctuation and bracket characters). -/
def isPunctB (c : Char) : Bool :=
  c ∈ [' ', '"', '.', ',' , ':', ';', '!', '?', '(', ')', '[', ']', '{', '}', '<', '>']

/-- Embedding of `InvertedIndex::cleanWord`: erase the longest prefix of
punctuation characters, then (when anything is left) the longest suffix of
punctuation characters.  When every character is punctuation the first erase
already empties the string and the second is a no-op, exactly as in the
source. -/
def cleanWord (s : String) : String :=
  ⟨((s.data.dropWhile isPunctB).reverse.dropWhile isPunctB).reverse⟩

/-- Worker for `splitWS`: scans the character list once, accumulating the
current word in reverse, emitting a word at every space boundary.  This is
the effect of repeated `stream >> word` extraction: maximal runs of
non-space characters, in order, with no empty words. -/
def wsGo : List Char → List Char → List String
  | [], cur => if cur.isEmpty then [] else [⟨cur.reverse⟩]
  | c :: t, cur =>
    if isSpaceB c then
      if cur.isEmpty then wsGo t [] else (⟨cur.reverse⟩ : String) :: wsGo t []
    else wsGo t (c :: cur)

/-- Embedding of the `while (stream >> word)` loops: split a string into its
whitespace-separated words. -/
def splitWS (s : String) : List String := wsGo s.data []

/-- Embedding of a `while (std::getline(stream, seg, d))` loop: segments are
the runs between delimiter occurrences; a trailing delimiter does not
produce a trailing empty segment (the final `getline` extracts zero
characters at end-of-input and fails), and empty input yields no segments. -/
def getlineSplit (d : Char) : List Char → List (List Char)
  | [] => []
  | c :: t =>
    if c = d then [] :: getlineSplit d t
    else
      match getlineSplit d t with
      | [] => [[c]]
      | s :: ss => (c :: s) :: ss

/-- Decimal digit character: `'0' + n`. -/
def digitChar (n : ℕ) : Char := Char.ofNat (48 + n)

/-- Base-10 digit characters of `n`, most significant first, by repeated
division; the fuel argument (always instantiated with `n` itself, an upper
bound on the number of digits) makes the recursion structural so that
proofs can evaluate it. -/
def natDigitsAux : ℕ → ℕ → List Char
  | 0, _ => []
  | fuel + 1, n => if n = 0 then [] else natDigitsAux fuel (n / 10) ++ [digitChar (n % 10)]

/-- Embedding of `std::to_string` on a non-negative integer: the base-10
digits, most significant first, with `0` rendered as `"0"`. -/
def natToString (n : ℕ) : String :=
  if n = 0 then "0" else ⟨natDigitsAux n n⟩

/-- The digit values behind `natToString`: `[0]` for zero, the reversed
base-10 digits otherwise (used to reason about renderings). -/
def padDigits (n : ℕ) : List ℕ :=
  if n = 0 then [0] else (Nat.digits 10 n).reverse

/-- Embedding of `std::to_string` on an `int`: a leading minus sign for
negative values, then the digits of the absolute value. -/
def intToStr (i : ℤ) : String :=
  if i < 0 then "-" ++ natToString (-i).toNat else natToString i.toNat

/-- Numeric value of a run of decimal digit characters (most significant
first). -/
def digitsVal (ds : List Char) : ℕ := ds.foldl (fun a c => 10 * a + (c.toNat - 48)) 0

/-- Embedding of `std::stoi`: skip leading whitespace, read an optional
sign, then a non-empty maximal run of digits; `none` models the
`std::invalid_argument` exception thrown when no digits are found (the
source catches it and skips the line). -/
def cppStoi (l : List Char) : Option ℤ :=
  let l₁ := l.dropWhile isSpaceB
  let (neg, l₂) :=
    match l₁ with
    | '-' :: t => (true, t)
    | '+' :: t => (false, t)
    | _ => (false, l₁)
  let ds := l₂.takeWhile isDigitB
  if ds.isEmpty then none
  else some ((if neg then (-1 : ℤ) else 1) * (digitsVal ds : ℤ))

/-- Embedding of `std::stof` on the decimal forms the catalog uses: optional
whitespace and sign, integer digits, optional point and fraction digits; at
least one digit is required overall, otherwise the call throws (modelled as
`none`).  Exponent and hexadecimal forms are not modelled; no catalog claim
depends on them. -/
def cppStof (l : List Char) : Option ℚ :=
  let l₁ := l.dropWhile isSpaceB
  let (neg, l₂) :=
    match l₁ with
    | '-' :: t => (true, t)
    | '+' :: t => (false, t)
    | _ => (false, l₁)
  let ds := l₂.takeWhile isDigitB
  let l₃ := l₂.drop ds.length
  let fs :=
    match l₃ with
    | '.' :: t => t.takeWhile isDigitB
    | _ => []
  if ds.isEmpty && fs.isEmpty then none
  else
    some (mkRat ((if neg then (-1 : ℤ) else 1) *
      (digitsVal ds * 10 ^ fs.length + digitsVal fs)) (10 ^ fs.length))

/-- Embedding of `static_cast<int>` on a floating value: truncation toward
zero. -/
def cppTrunc (r : ℚ) : ℤ := if 0 ≤ r then ⌊r⌋ else -⌊-r⌋

/-- The integers visited by `for (int i = t; i <= 10; ++i)`: the list
`[t, t+1, ..., 10]`, empty when `t > 10`. -/
def cppRange (t : ℤ) : List ℤ :=
  (List.range (Int.toNat (11 - t))).map (fun j : ℕ => t + (j : ℤ))

/-- Embedding of the `Movie` struct of `Server.cpp`. -/
structure Movie where
  id : ℤ
  title : String
  overview : String
  language : String
  genres : List String
  year : ℤ
  rating : ℚ
  posterUrl : String
  deriving Repr, DecidableEq

/-- The inverted index: `unordered_map<string, unordered_set<int>>`,
modelled as a total function from keys to posting lists.  In the source an
absent key and a key mapping to the empty set are observationally the same
(every insertion makes the list non-empty, every lookup returns the empty
set for an absent key), so `idx key = ∅` models "key not present". -/
abbrev Index := String → Finset ℕ

/-- The freshly constructed (or freshly cleared) index. -/
def emptyIndex : Index := fun _ => ∅

/-- Embedding of `InvertedIndex::addToIndex`: `index[key].insert(movieId)`. -/
def addToIndex (idx : Index) (key : String) (movieId : ℕ) : Index :=
  fun k => if k = key then insert movieId (idx k) else idx k

/-- The keys for the text categories in `addMovie`'s `processText` lambda:
each whitespace word of the text, cleaned and lowercased, dropped when the
cleaning empties it, prefixed with the category string. -/
def textKeys (cat : String) (text : String) : List String :=
  (((splitWS text).map (fun w => toLower (cleanWord w))).filter
    (fun w => w ≠ "")).map (fun w => cat ++ w)

/-- The index keys `InvertedIndex::addMovie` emits for one movie, in source
order: a `genre_` key per whitespace word of every genre string (lowercased,
not punctuation-cleaned), one `year_` key, one `language_` key, a `rating_`
key for every integer from the truncated rating through 10, and `title_` /
`overview_` keys per cleaned word. -/
def movieKeys (m : Movie) : List String :=
  (m.genres.flatMap (fun g => (splitWS g).map (fun w => "genre_" ++ toLower w))) ++
  ["year_" ++ intToStr m.year] ++
  ["language_" ++ toLower m.language] ++
  ((cppRange (cppTrunc m.rating)).map (fun i => "rating_" ++ intToStr i)) ++
  textKeys "title_" m.title ++
  textKeys "overview_" m.overview

/-- Embedding of `InvertedIndex::addMovie`: insert the id under every key
the movie emits. -/
def addMovie (idx : Index) (id : ℕ) (m : Movie) : Index :=
  (movieKeys m).foldl (fun i k => addToIndex i k id) idx

/-- The index-rebuild loop of `loadMovies` (lines 369-372): clear, then
`addMovie(i, movies[i])` for `i = 0 .. movies.size()-1`. -/
def buildIndex (ms : List Movie) : Index :=
  (ms.enum).foldl (fun idx p => addMovie idx p.1 p.2) emptyIndex

/-- Embedding of `InvertedIndex::searchByCategory`: probe the single key
`category + "_" + toLower(value)`; an absent key yields the empty set. -/
def searchByCategory (idx : Index) (category value : String) : Finset ℕ :=
  idx (category ++ "_" ++ toLower value)

/-- Embedding of the `.empty()` tests on result sets: `unordered_set::empty`
is a size test, modelled as a zero-cardinality test. -/
def setEmpty (s : Finset ℕ) : Bool := s.card = 0

/-- Embedding of `InvertedIndex::intersectResults`: keep the members of the
base set that are also in the additional set. -/
def intersectResults (base extra : Finset ℕ) : Finset ℕ :=
  base.filter (fun id => id ∈ extra)

/-- The six category prefixes probed per keyword, in source order. -/
def categoryKeys : List String :=
  ["title_", "overview_", "genre_", "language_", "year_", "rating_"]

/-- The per-keyword union across the six categories (bodies of the loops at
lines 163-168 and 574-580): the union of the posting lists of
`category + cleanedKey` over the six categories. -/
def unionCats (idx : Index) (w : String) : Finset ℕ :=
  categoryKeys.foldl (fun acc c => acc ∪ idx (c ++ w)) ∅

/-- The keyword loop of `InvertedIndex::searchByKeywords`: clean and
lowercase each keyword, take its six-category union, seed the running
result with the first keyword's union (the `isFirst` flag), intersect
afterwards, and stop as soon as the running result is empty. -/
def searchByKeywordsLoop (idx : Index) : List String → Bool → Finset ℕ → Finset ℕ
  | [], _, cur => cur
  | k :: rest, isFirst, cur =>
    let keyResults := unionCats idx (toLower (cleanWord k))
    let cur' := if isFirst then keyResults else intersectResults cur keyResults
    if setEmpty cur' then cur' else searchByKeywordsLoop idx rest false cur'

/-- Embedding of `InvertedIndex::searchByKeywords`. -/
def searchByKeywords (idx : Index) (keys : List String) : Finset ℕ :=
  searchByKeywordsLoop idx keys true ∅

/-- Modelled from the spec (§4.2 keyword lookup), for the refinement claim:
the running result is the intersection of the per-keyword six-category
unions across all keywords, with no short-circuiting; an empty keyword
sequence yields the empty result. -/
def naiveKeywordSearch (idx : Index) (keys : List String) : Finset ℕ :=
  match keys.map (fun k => unionCats idx (toLower (cleanWord k))) with
  | [] => ∅
  | u :: us => us.foldl (fun a b => a ∩ b) u

/-- The recognised POST form fields.  `params[key]` on an absent key default
constructs the empty string in the source, so absent fields are modelled as
`""`. -/
structure PostParams where
  genre : String := ""
  year : String := ""
  language : String := ""
  keywords : String := ""
  sort : String := ""
  deriving Repr, DecidableEq

/-- The POST search logic of `handleClient` (lines 519-587), after the form
fields have been decoded: each supplied filter (non-empty field) is looked
up and combined with the running result by
`if (results.empty()) results = X; else results = intersect(results, X)`;
the genre field is split into words (after `+` decodes to space) and the
words are combined by the same empty-test pattern; the keyword field is
split on `+`, each keyword cleaned and lowercased, empties dropped, and
each keyword's six-category union combined by the same pattern. -/
def postSearch (idx : Index) (p : PostParams) : Finset ℕ :=
  let results : Finset ℕ := ∅
  let results :=
    if p.genre ≠ "" then
      let genreInput : String := ⟨p.genre.data.map (fun c => if c = '+' then ' ' else c)⟩
      let genreResults := (splitWS genreInput).foldl
        (fun acc w =>
          let wordResults := searchByCategory idx "genre" w
          if setEmpty acc then wordResults else intersectResults acc wordResults) ∅
      if setEmpty results then genreResults else intersectResults results genreResults
    else results
  let results :=
    if p.year ≠ "" then
      let yearResults := searchByCategory idx "year" p.year
      if setEmpty results then yearResults else intersectResults results yearResults
    else results
  let results :=
    if p.language ≠ "" then
      let languageResults := searchByCategory idx "language" p.language
      if setEmpty results then languageResults else intersectResults results languageResults
    else results
  let results :=
    if p.keywords ≠ "" then
      let kws := ((getlineSplit '+' p.keywords.data).map
        (fun k => toLower (cleanWord ⟨k⟩))).filter (fun k => k ≠ "")
      kws.foldl
        (fun acc w =>
          let wordResults := unionCats idx w
          if setEmpty acc then wordResults else intersectResults acc wordResults) results
    else results
  results

/-- Does `pat` occur at the start of `s`?  (`std::string::find(pat) == 0`.) -/
def begMatch : List Char → List Char → Bool
  | [], _ => true
  | _ :: _, [] => false
  | a :: as, b :: bs => a = b && begMatch as bs

/-- Does `pat` occur anywhere in `s`?  (`std::string::find(pat) != npos`.) -/
def occursIn (pat : List Char) : List Char → Bool
  | [] => begMatch pat []
  | c :: t => begMatch pat (c :: t) || occursIn pat t

/-- The three responses `handleClient` can write, abstracted to tags (the
rendered HTML/plain-text bodies are presentation, out of the spec's scope). -/
inductive Resp where
  | getForm
  | postResults
  | searchResults
  deriving Repr, DecidableEq

/-- Embedding of `handleClient`'s dispatch (lines 387-821): a failed or
empty read (`none`) closes the connection with no response; otherwise the
GET branch fires when `"GET"` occurs anywhere in the request, the POST
branch when `"POST"` occurs anywhere, and the SEARCH branch when the
request begins with `"SEARCH"` — three independent `if`s, in that order,
each appending its response.  A request firing none of them is closed with
no response. -/
def handleClient (req : Option String) : List Resp :=
  match req with
  | none => []
  | some r =>
    (if occursIn "GET".data r.data then [Resp.getForm] else []) ++
    (if occursIn "POST".data r.data then [Resp.postResults] else []) ++
    (if begMatch "SEARCH".data r.data then [Resp.searchResults] else [])

/-- The validation test of `loadMovies` (lines 331-332): non-empty title,
overview and genre list, non-zero year, positive rating. -/
def validMovie (m : Movie) : Bool :=
  m.title ≠ "" && m.overview ≠ "" && !m.genres.isEmpty && m.year ≠ 0 && m.rating > 0

/-- Embedding of the per-line parse of `loadMovies`' `processChunk` (lines
285-328): split the line into fields on unquoted commas with `"` toggling
the quote state (quote characters are dropped), require at least 9 fields,
parse year (first 4 characters of field 0; empty field means year 0) and
rating (field 5; empty field means rating 0) — a failed numeric parse
throws and the line is skipped with nothing recorded — then split field 7
on commas, trim spaces and quotes from each genre, and drop empty genres.
Returns the genre strings observed (they are inserted into the thread's
genre set during parsing, before validation) together with the parsed
movie; `localId` is the number of movies the worker has already kept
(`threadMovies[threadId].size()`). -/
def splitFields : List Char → Bool → List Char → List String
  | [], _, cur => [⟨cur.reverse⟩]
  | c :: t, inQ, cur =>
    if c = '"' then splitFields t (!inQ) cur
    else if c = ',' && !inQ then (⟨cur.reverse⟩ : String) :: splitFields t inQ []
    else splitFields t inQ (c :: cur)

/-- Genre trimming of `loadMovies` (lines 319-320): erase leading and
trailing runs of spaces and double quotes. -/
def trimGenre (l : List Char) : List Char :=
  ((l.dropWhile (fun c => c = ' ' || c = '"')).reverse.dropWhile
    (fun c => c = ' ' || c = '"')).reverse

def parseLine (localId : ℤ) (line : List Char) : List String × Option Movie :=
  let fields := splitFields line false []
  if fields.length < 9 then ([], none)
  else
    let f0 := fields.getD 0 ""
    let f5 := fields.getD 5 ""
    let year? := if f0 = "" then some 0 else cppStoi (f0.data.take 4)
    let rating? := if f5 = "" then some 0 else cppStof f5.data
    match year?, rating? with
    | some y, some rt =>
      let gs := ((getlineSplit ',' (fields.getD 7 "").data).map
        (fun g => (⟨trimGenre g⟩ : String))).filter (fun g => g ≠ "")
      (gs, some
        { id := localId
          title := fields.getD 1 ""
          overview := fields.getD 2 ""
          language := fields.getD 6 ""
          genres := gs
          year := y
          rating := rt
          posterUrl := fields.getD 8 "" })
    | _, _ => ([], none)

/-- The process-wide shared state of `Server.cpp`: the globals `movies`,
`genres`, `languages`, `years`, `ratings` and `invertedIndex`. -/
structure ServerState where
  movies : List Movie
  genres : Finset String
  languages : Finset String
  years : Finset ℤ
  ratings : Finset ℚ
  index : Index

/-- Accumulator of the load: the (merged) movie list and derived fact
sets. -/
structure LoadAcc where
  movies : List Movie
  genres : Finset String
  languages : Finset String
  years : Finset ℤ
  ratings : Finset ℚ

/-- One line of the load loop: parse; record the observed genres (inserted
during parsing even when the later validation drops the movie); keep the
movie and its year/rating/language facts only when it passes validation. -/
def processLine (acc : LoadAcc) (line : List Char) : LoadAcc :=
  match parseLine (acc.movies.length : ℤ) line with
  | (gObs, none) => { acc with genres := acc.genres ∪ gObs.toFinset }
  | (gObs, some m) =>
    let acc := { acc with genres := acc.genres ∪ gObs.toFinset }
    if validMovie m then
      { acc with
        movies := acc.movies ++ [m]
        years := insert m.year acc.years
        ratings := insert m.rating acc.ratings
        languages := insert m.language acc.languages }
    else acc

/-- Embedding of `loadMovies` (lines 253-375).  `none` models a file that
cannot be opened: the function reports the error and returns with every
global untouched (the clear-and-rebuild happens only after a successful
read).  `some content` models a readable file: the lines are parsed, the
globals are replaced by the merged results, and the inverted index is
cleared and rebuilt from the final movie list with dense ids `0..M-1`.  The
byte-range chunking over `numThreads` workers is file-I/O mechanics; its
merge (worker order concatenation) is modelled as one sequential pass over
the lines.  The returned flag records whether the load error was reported.
The visibility of the in-place clear-and-rebuild to concurrent readers is
modelled separately by `reloadIndexStates`. -/
def loadMovies (file : Option String) (st : ServerState) : ServerState × Bool :=
  match file with
  | none => (st, true)
  | some content =>
    let lines := getlineSplit '\n' content.data
    let acc := lines.foldl processLine ⟨[], ∅, ∅, ∅, ∅⟩
    (⟨acc.movies, acc.genres, acc.languages, acc.years, acc.ratings,
      buildIndex acc.movies⟩, false)

/-- The successive values of the shared `invertedIndex` that a concurrent
search can observe while `loadMovies` rebuilds it in place (lines 369-372):
every `InvertedIndex` operation acquires the same mutex and releases it
before the next one, so a reader can run after `clear()` (observing the
empty index) and after each completed `addMovie(i, movies[i])` (observing
the index built from the first `i+1` movies). -/
def reloadIndexStates (ms : List Movie) : List Index :=
  emptyIndex :: (List.range ms.length).map (fun j => buildIndex (ms.take (j + 1)))

/-- A minimal one-movie catalog used as concrete input: genre "Action",
year 2000, language "en", rating 5. -/
def mAlpha : Movie :=
  { id := 0, title := "Alpha", overview := "Beta", language := "en",
    genres := ["Action"], year := 2000, rating := mkRat 5 1, posterUrl := "p" }

/-- The worked example of the spec (§8): title "Inception", overview
"A thief who steals corporate secrets", genres ["Science Fiction",
"Action"], year 2010, rating 8.8, language "en". -/
def mInception : Movie :=
  { id := 0, title := "Inception", overview := "A thief who steals corporate secrets",
    language := "en", genres := ["Science Fiction", "Action"], year := 2010,
    rating := mkRat 44 5, posterUrl := "" }

/-- The server state before any load: empty globals. -/
def st0 : ServerState := ⟨[], ∅, ∅, ∅, ∅, emptyIndex⟩

/-- A one-line catalog file in the 9-field schema: release date, title,
overview, two unused fields, rating, language, genre list, poster. -/
def csvLine1 : String := "1995-01-01,Inception,A thief,x,x,8.8,en,Science Fiction,poster.jpg"

/-- Appending strings appends their character lists. -/
theorem strData_append (a b : String) : (a ++ b).data = a.data ++ b.data := by
  cases a; cases b; rfl

/-- Two appends whose left parts start with different characters are
different strings. -/
theorem append_ne_of_head_ne {a b : String} (x y : String) {c d : Char}
    (ha : a.data.head? = some c) (hb : b.data.head? = some d) (hcd : c ≠ d) :
    a ++ x ≠ b ++ y := by
  intro h
  have h' := congrArg (fun s => s.data.head?) h
  simp only [strData_append, List.head?_append, ha, hb, Option.or] at h'
  exact hcd (Option.some.inj h')

/-- Left cancellation for string append. -/
theorem str_append_left_cancel {a x y : String} (h : a ++ x = a ++ y) : x = y := by
  apply String.ext
  have h' := congrArg String.data h
  simp only [strData_append] at h'
  exact List.append_cancel_left h'

/-- Membership after one `addToIndex`: the id is there iff it was already
there or it is the inserted id under the inserted key. -/
theorem mem_addToIndex (idx : Index) (key : String) (mid id : ℕ) (k : String) :
    id ∈ addToIndex idx key mid k ↔ id ∈ idx k ∨ (id = mid ∧ k = key) := by
  unfold addToIndex
  by_cases hk : k = key
  · subst hk
    simp [Finset.mem_insert]
    tauto
  · simp [hk]

/-- Membership after folding `addToIndex` over a list of keys for one id. -/
theorem mem_addKeys (ks : List String) (idx : Index) (mid id : ℕ) (k : String) :
    id ∈ (ks.foldl (fun i key => addToIndex i key mid) idx) k ↔
      id ∈ idx k ∨ (id = mid ∧ k ∈ ks) := by
  induction ks generalizing idx with
  | nil => simp
  | cons a as ih =>
    simp only [List.foldl_cons, ih, mem_addToIndex, List.mem_cons]
    tauto

/-- Membership after `addMovie`: the id is there iff it was already there or
it is the added id and the key is one of the movie's emitted keys. -/
theorem mem_addMovie (idx : Index) (i : ℕ) (m : Movie) (id : ℕ) (k : String) :
    id ∈ addMovie idx i m k ↔ id ∈ idx k ∨ (id = i ∧ k ∈ movieKeys m) := by
  unfold addMovie
  exact mem_addKeys (movieKeys m) idx i id k

/-- Membership after folding `addMovie` over an id/movie list. -/
theorem mem_fold_addMovie (l : List (ℕ × Movie)) (idx : Index) (id : ℕ) (k : String) :
    id ∈ (l.foldl (fun i p => addMovie i p.1 p.2) idx) k ↔
      id ∈ idx k ∨ ∃ p ∈ l, p.1 = id ∧ k ∈ movieKeys p.2 := by
  induction l generalizing idx with
  | nil => simp
  | cons a as ih =>
    simp only [List.foldl_cons, ih, mem_addMovie, List.mem_cons]
    constructor
    · rintro (((h | ⟨rfl, hk⟩) | ⟨p, hp, rfl, hk⟩))
      · exact Or.inl h
      · exact Or.inr ⟨a, Or.inl rfl, rfl, hk⟩
      · exact Or.inr ⟨p, Or.inr hp, rfl, hk⟩
    · rintro (h | ⟨p, (rfl | hp), rfl, hk⟩)
      · exact Or.inl (Or.inl h)
      · exact Or.inl (Or.inr ⟨rfl, hk⟩)
      · exact Or.inr ⟨p, hp, rfl, hk⟩

/-- Membership in the rebuilt index: an id is in a posting list exactly when
it is a valid position in the movie list and the movie at that position
emits the key.  This is the posting-list invariant of the data model. -/
theorem mem_buildIndex (ms : List Movie) (id : ℕ) (k : String) :
    id ∈ buildIndex ms k ↔ ∃ m, ms.get? id = some m ∧ k ∈ movieKeys m := by
  unfold buildIndex
  rw [mem_fold_addMovie]
  simp only [emptyIndex, Finset.not_mem_empty, false_or]
  constructor
  · rintro ⟨p, hp, rfl, hk⟩
    have := List.mem_enum_iff_getElem?.mp hp
    exact ⟨p.2, by simpa [List.getElem?_eq_some_iff, List.get?_eq_some] using this, hk⟩
  · rintro ⟨m, hm, hk⟩
    refine ⟨(id, m), List.mem_enum_iff_getElem?.mpr ?_, rfl, hk⟩
    simpa [List.getElem?_eq_some_iff, List.get?_eq_some] using hm

/-- `digitChar` of a digit has the expected code point. -/
theorem digitChar_toNat {d : ℕ} (hd : d < 10) : (digitChar d).toNat = 48 + d := by
  interval_cases d <;> decide

/-- `digitChar` is injective on digits. -/
theorem digitChar_inj {a b : ℕ} (ha : a < 10) (hb : b < 10)
    (h : digitChar a = digitChar b) : a = b := by
  have := congrArg Char.toNat h
  rw [digitChar_toNat ha, digitChar_toNat hb] at this
  omega

/-- If two mapped digit lists agree and all entries are digits, the lists
agree. -/
theorem map_digitChar_inj : ∀ (a b : List ℕ), (∀ d ∈ a, d < 10) → (∀ d ∈ b, d < 10) →
    a.map digitChar = b.map digitChar → a = b
  | [], [], _, _, _ => rfl
  | [], _ :: _, _, _, h => by simp at h
  | _ :: _, [], _, _, h => by simp at h
  | x :: xs, y :: ys, ha, hb, h => by
    simp only [List.map_cons, List.cons.injEq] at h
    have hx := ha x (List.mem_cons_self x xs)
    have hy := hb y (List.mem_cons_self y ys)
    have hxy := digitChar_inj hx hy h.1
    have htail := map_digitChar_inj xs ys
      (fun d hd => ha d (List.mem_cons_of_mem _ hd))
      (fun d hd => hb d (List.mem_cons_of_mem _ hd)) h.2
    rw [hxy, htail]

/-- Every entry of `padDigits` is a digit. -/
theorem padDigits_lt (n : ℕ) : ∀ d ∈ padDigits n, d < 10 := by
  intro d hd
  unfold padDigits at hd
  by_cases h0 : n = 0
  · simp [h0] at hd
    omega
  · simp only [h0, if_false, List.mem_reverse] at hd
    exact Nat.digits_lt_base' (b := 8) hd

/-- `padDigits` determines the number. -/
theorem padDigits_inj {a b : ℕ} (h : padDigits a = padDigits b) : a = b := by
  have key : ∀ n : ℕ, Nat.ofDigits 10 (padDigits n).reverse = n := by
    intro n
    unfold padDigits
    by_cases h0 : n = 0
    · simp [h0, Nat.ofDigits]
    · simp only [h0, if_false, List.reverse_reverse]
      exact Nat.ofDigits_digits 10 n
  have ha := key a
  rw [h, key b] at ha
  exact ha.symm

/-- Out of fuel or out of value, the digit extractor yields nothing. -/
theorem natDigitsAux_zero (fuel : ℕ) : natDigitsAux fuel 0 = [] := by
  cases fuel <;> simp [natDigitsAux]

/-- With enough fuel, the structural digit extractor agrees with the
mathematical base-10 digits, most significant first. -/
theorem natDigitsAux_eq (fuel : ℕ) : ∀ n : ℕ, 0 < n → n ≤ fuel →
    natDigitsAux fuel n = (Nat.digits 10 n).reverse.map digitChar := by
  induction fuel with
  | zero => omega
  | succ f ih =>
    intro n h1 h2
    show (if n = 0 then [] else natDigitsAux f (n / 10) ++ [digitChar (n % 10)]) = _
    rw [if_neg (by omega)]
    rw [Nat.digits_def' (by norm_num : 1 < 10) h1]
    simp only [List.reverse_cons, List.map_append, List.map_cons, List.map_nil]
    by_cases h : n / 10 = 0
    · rw [h, natDigitsAux_zero]
      simp
    · rw [ih (n / 10) (by omega) (by omega)]

/-- The characters of `natToString` are `digitChar` of `padDigits`. -/
theorem natToString_data (n : ℕ) : (natToString n).data = (padDigits n).map digitChar := by
  unfold natToString padDigits
  by_cases h0 : n = 0
  · simp [h0]
    decide
  · simp only [h0, if_false]
    exact natDigitsAux_eq n n (by omega) le_rfl

/-- Every character of `natToString n` is a decimal digit. -/
theorem natToString_chars {n : ℕ} {c : Char} (hc : c ∈ (natToString n).data) :
    48 ≤ c.toNat ∧ c.toNat ≤ 57 := by
  rw [natToString_data] at hc
  obtain ⟨d, hd, rfl⟩ := List.mem_map.mp hc
  rw [digitChar_toNat (padDigits_lt n d hd)]
  have := padDigits_lt n d hd
  omega

/-- `padDigits` is never empty. -/
theorem padDigits_ne_nil (n : ℕ) : padDigits n ≠ [] := by
  unfold padDigits
  by_cases h0 : n = 0
  · simp [h0]
  · simp only [h0, if_false, ne_eq, List.reverse_eq_nil_iff]
    exact Nat.digits_ne_nil_iff_ne_zero.mpr h0

/-- `natToString n` starts with a decimal digit. -/
theorem natToString_head (n : ℕ) :
    ∃ c, (natToString n).data.head? = some c ∧ 48 ≤ c.toNat ∧ c.toNat ≤ 57 := by
  have hne : (natToString n).data ≠ [] := by
    rw [natToString_data]
    simp only [ne_eq, List.map_eq_nil_iff]
    exact padDigits_ne_nil n
  obtain ⟨c, t, he⟩ := List.exists_cons_of_ne_nil hne
  refine ⟨c, by rw [he]; rfl, ?_⟩
  exact natToString_chars (by rw [he]; exact List.mem_cons_self c t)

/-- `natToString` is injective. -/
theorem natToString_inj {a b : ℕ} (h : natToString a = natToString b) : a = b := by
  have hd := congrArg String.data h
  rw [natToString_data, natToString_data] at hd
  exact padDigits_inj (map_digitChar_inj _ _ (padDigits_lt a) (padDigits_lt b) hd)

/-- The rendering of an `int` starts with a minus sign or a digit, and a
digit exactly when the value is non-negative. -/
theorem intToStr_head_neg {i : ℤ} (h : i < 0) :
    (intToStr i).data.head? = some '-' := by
  unfold intToStr
  rw [if_pos h, strData_append]
  rfl

/-- `intToStr` is injective. -/
theorem intToStr_inj {a b : ℤ} (h : intToStr a = intToStr b) : a = b := by
  by_cases ha : a < 0 <;> by_cases hb : b < 0
  · unfold intToStr at h
    rw [if_pos ha, if_pos hb] at h
    have hn := natToString_inj (str_append_left_cancel h)
    omega
  · exfalso
    have h1 := intToStr_head_neg ha
    rw [h] at h1
    unfold intToStr at h1
    rw [if_neg hb] at h1
    obtain ⟨c, hc, hge, _⟩ := natToString_head b.toNat
    rw [hc] at h1
    have hce := Option.some.inj h1
    subst hce
    exact absurd hge (by decide)
  · exfalso
    have h1 := intToStr_head_neg hb
    rw [← h] at h1
    unfold intToStr at h1
    rw [if_neg ha] at h1
    obtain ⟨c, hc, hge, _⟩ := natToString_head a.toNat
    rw [hc] at h1
    have hce := Option.some.inj h1
    subst hce
    exact absurd hge (by decide)
  · unfold intToStr at h
    rw [if_neg ha, if_neg hb] at h
    have hn := natToString_inj h
    omega

/-- A character below the uppercase range is fixed by `::tolower`. -/
theorem lowerChar_of_lt {c : Char} (h : c.toNat < 65) : lowerChar c = c := by
  unfold lowerChar
  rw [if_neg]
  simp only [Bool.and_eq_true, decide_eq_true_eq, not_and]
  omega

/-- `toLower` fixes a string whose characters are all below the uppercase
range. -/
theorem toLower_of_all_lt {s : String} (h : ∀ c ∈ s.data, c.toNat < 65) :
    toLower s = s := by
  apply String.ext
  show s.data.map lowerChar = s.data
  calc s.data.map lowerChar = s.data.map id :=
    List.map_congr_left (fun c hc => lowerChar_of_lt (h c hc))
  _ = s.data := List.map_id s.data

/-- Every character of `intToStr` is a minus sign or a digit, hence below
the uppercase range. -/
theorem intToStr_chars {i : ℤ} {c : Char} (hc : c ∈ (intToStr i).data) : c.toNat < 65 := by
  unfold intToStr at hc
  by_cases h : i < 0
  · rw [if_pos h, strData_append] at hc
    rcases List.mem_append.mp hc with h1 | h1
    · simp at h1
      subst h1
      decide
    · have := natToString_chars h1
      omega
  · rw [if_neg h] at hc
    have := natToString_chars hc
    omega

/-- Lowercasing the decimal rendering of an integer changes nothing. -/
theorem toLower_intToStr (i : ℤ) : toLower (intToStr i) = intToStr i :=
  toLower_of_all_lt (fun _ hc => intToStr_chars hc)

/-- Membership in the `for (int i = t; i <= 10; ++i)` iteration space. -/
theorem mem_cppRange {t k : ℤ} : k ∈ cppRange t ↔ t ≤ k ∧ k ≤ 10 := by
  unfold cppRange
  simp only [List.mem_map, List.mem_range]
  constructor
  · rintro ⟨j, hj, rfl⟩
    omega
  · rintro ⟨h1, h2⟩
    refine ⟨(k - t).toNat, ?_, ?_⟩
    · omega
    · omega

/-- For a non-negative rating, `static_cast<int>` truncation is the floor. -/
theorem cppTrunc_of_nonneg {r : ℚ} (h : 0 ≤ r) : cppTrunc r = ⌊r⌋ := if_pos h

/-- `intersectResults` is set intersection. -/
theorem intersectResults_eq_inter (a b : Finset ℕ) : intersectResults a b = a ∩ b :=
  Finset.filter_mem_eq_inter

/-- Folding intersection from the empty set stays empty. -/
theorem foldl_inter_empty (l : List (Finset ℕ)) :
    l.foldl (fun a b => a ∩ b) ∅ = ∅ := by
  induction l with
  | nil => rfl
  | cons x xs ih => simpa [Finset.empty_inter] using ih

/-- After the first keyword, the short-circuiting loop computes the same
fold of intersections as the naive evaluation: breaking on an empty running
set is sound because intersecting the empty set with anything stays
empty. -/
theorem searchByKeywordsLoop_eq (idx : Index) (ks : List String) (cur : Finset ℕ) :
    searchByKeywordsLoop idx ks false cur =
      (ks.map (fun k => unionCats idx (toLower (cleanWord k)))).foldl
        (fun a b => a ∩ b) cur := by
  induction ks generalizing cur with
  | nil => rfl
  | cons k rest ih =>
    show (let keyResults := unionCats idx (toLower (cleanWord k))
          let cur' := if false = true then keyResults else intersectResults cur keyResults
          if setEmpty cur' then cur' else searchByKeywordsLoop idx rest false cur') = _
    simp only [Bool.false_eq_true, if_false, intersectResults_eq_inter]
    by_cases h : cur ∩ unionCats idx (toLower (cleanWord k)) = ∅
    · rw [if_pos (by simp [setEmpty, Finset.card_eq_zero, h])]
      simp only [List.map_cons, List.foldl_cons]
      rw [h]
      exact (foldl_inter_empty _).symm
    · rw [if_neg (by simp [setEmpty, Finset.card_eq_zero, h]), ih]
      simp only [List.map_cons, List.foldl_cons]

/-- A `rating_` key is in a movie's emitted keys exactly when its integer is
in the truncated-rating-to-10 range: no key from another category can
collide (the category prefixes start with distinct characters), and within
the rating block the rendered integer determines the value. -/
theorem rating_key_mem (m : Movie) (k : ℤ) :
    ("rating_" ++ intToStr k) ∈ movieKeys m ↔ k ∈ cppRange (cppTrunc m.rating) := by
  unfold movieKeys textKeys
  simp only [List.mem_append, List.mem_flatMap, List.mem_map, List.mem_singleton,
    List.mem_filter]
  constructor
  · rintro (((((⟨g, hg, w, hw, he⟩ | he) | he) | ⟨i, hi, he⟩) | ⟨a, ha, he⟩) | ⟨a, ha, he⟩)
    · exact absurd he (append_ne_of_head_ne (c := 'g') (d := 'r') _ _ rfl rfl (by decide))
    · exact absurd he (append_ne_of_head_ne (c := 'r') (d := 'y') _ _ rfl rfl (by decide))
    · exact absurd he (append_ne_of_head_ne (c := 'r') (d := 'l') _ _ rfl rfl (by decide))
    · have := intToStr_inj (str_append_left_cancel he)
      rwa [this] at hi
    · exact absurd he (append_ne_of_head_ne (c := 't') (d := 'r') _ _ rfl rfl (by decide))
    · exact absurd he (append_ne_of_head_ne (c := 'o') (d := 'r') _ _ rfl rfl (by decide))
  · intro hk
    exact Or.inl (Or.inl (Or.inr ⟨k, hk, rfl⟩))

/-- Every key a movie emits decomposes as one of the six fixed categories,
an underscore, and a value. -/
theorem movieKeys_shape (m : Movie) (key : String) (h : key ∈ movieKeys m) :
    ∃ c ∈ (["title", "overview", "genre", "language", "year", "rating"] : List String),
      ∃ v, key = c ++ "_" ++ v := by
  unfold movieKeys textKeys at h
  simp only [List.mem_append, List.mem_flatMap, List.mem_map, List.mem_singleton,
    List.mem_filter] at h
  rcases h with (((((⟨g, hg, w, hw, he⟩ | he) | he) | ⟨i, hi, he⟩) | ⟨a, ha, he⟩) | ⟨a, ha, he⟩)
  · exact ⟨"genre", by simp, toLower w, by
      rw [← he, show ("genre" : String) ++ "_" = "genre_" by decide]⟩
  · exact ⟨"year", by simp, intToStr m.year, by
      rw [he, show ("year" : String) ++ "_" = "year_" by decide]⟩
  · exact ⟨"language", by simp, toLower m.language, by
      rw [he, show ("language" : String) ++ "_" = "language_" by decide]⟩
  · exact ⟨"rating", by simp, intToStr i, by
      rw [← he, show ("rating" : String) ++ "_" = "rating_" by decide]⟩
  · exact ⟨"title", by simp, a, by
      rw [← he, show ("title" : String) ++ "_" = "title_" by decide]⟩
  · exact ⟨"overview", by simp, a, by
      rw [← he, show ("overview" : String) ++ "_" = "overview_" by decide]⟩

/-- Ids in any posting list of a rebuilt index are valid positions. -/
theorem buildIndex_lt (ms : List Movie) (id : ℕ) (key : String)
    (h : id ∈ buildIndex ms key) : id < ms.length := by
  obtain ⟨m, hm, _⟩ := (mem_buildIndex ms id key).mp h
  obtain ⟨hlt, _⟩ := List.get?_eq_some.mp hm
  exact hlt

/-- A pattern matches at the head of its own extension. -/
theorem begMatch_append (l r : List Char) : begMatch l (l ++ r) = true := by
  induction l with
  | nil => rfl
  | cons c t ih => simp [begMatch, ih]

/-- A string that decomposes as `p ++ x` matches `p` at its head. -/
theorem begMatch_of_eq_append (p x s : String) (h : s = p ++ x) :
    begMatch p.data s.data = true := by
  rw [h, strData_append]
  exact begMatch_append p.data x.data

/-- C1: evaluation of the POST search at a failing input.  Over the
one-movie catalog `[mAlpha]` (genre Action, year 2000), the request
`genre=zzz&year=2000` supplies a genre filter whose result set is empty, so
the claimed intersection semantics give the empty result (first conjunct);
but the code's `if (results.empty()) results = X` pattern lets the year
filter replace the empty running result, and the POST search returns
`{0}` (second conjunct).  This refutes "once the running result becomes
empty after any supplied filter step, the final result is empty". -/
theorem C1_empty_filter_replaced :
    intersectResults (searchByCategory (buildIndex [mAlpha]) "genre" "zzz")
        (searchByCategory (buildIndex [mAlpha]) "year" "2000") = ∅ ∧
    postSearch (buildIndex [mAlpha]) { genre := "zzz", year := "2000" } = {0} :=
  ⟨Finset.subset_empty.mp (by decide),
    Finset.Subset.antisymm (by decide) (by decide)⟩

/-- C2: the in-place clear-and-rebuild of `loadMovies` exposes an
intermediate index state to concurrent searches.  The state right after
`invertedIndex.clear()` is one of the reader-visible states of a reload of
the catalog `[mAlpha]` (each index operation releases the mutex before the
next); a search for genre "Action" observes the empty posting list there,
although the same token has posting list `{0}` in both the pre-reload and
post-reload generations.  This refutes "the reload installs the new
generation with a single atomic swap, never by clearing and repopulating
the live index in place". -/
theorem C2_reload_window :
    emptyIndex ∈ reloadIndexStates [mAlpha] ∧
    searchByCategory emptyIndex "genre" "Action" = ∅ ∧
    searchByCategory (buildIndex [mAlpha]) "genre" "Action" = {0} := by
  refine ⟨?_, rfl, Finset.Subset.antisymm (by decide) (by decide)⟩
  unfold reloadIndexStates
  exact List.mem_cons_self _ _

/-- C3 counterexample: indexing the catalog `[mAlpha]` produces the present
key `"genre_action"`, and that key is not of the form
`category + ":" + value` for any of the six categories — the separator in
the code is an underscore, not the colon the claim states. -/
theorem C3_separator_cex :
    buildIndex [mAlpha] "genre_action" ≠ ∅ ∧
    ¬ ∃ c ∈ (["title", "overview", "genre", "language", "year", "rating"] : List String),
        ∃ v : String, "genre_action" = c ++ ":" ++ v := by
  refine ⟨Finset.ne_empty_of_mem (a := 0) (by decide), ?_⟩
  rintro ⟨c, hc, v, hv⟩
  fin_cases hc <;>
    exact absurd (begMatch_of_eq_append _ _ _ hv) (by decide)

/-- C3 as amended: every key present (non-empty posting list) in the index
built from any collection has the form `category + "_" + value` with the
category one of the six fixed categories, and category lookup builds its
single probe key by the same scheme, `category + "_" + toLower(value)`. -/
theorem C3_key_scheme :
    (∀ (ms : List Movie) (key : String), buildIndex ms key ≠ ∅ →
      ∃ c ∈ (["title", "overview", "genre", "language", "year", "rating"] : List String),
        ∃ v, key = c ++ "_" ++ v) ∧
    (∀ (idx : Index) (c v : String),
      searchByCategory idx c v = idx (c ++ "_" ++ toLower v)) := by
  refine ⟨?_, fun idx c v => rfl⟩
  intro ms key hne
  obtain ⟨id, hid⟩ := Finset.nonempty_iff_ne_empty.mpr hne
  obtain ⟨m, _, hk⟩ := (mem_buildIndex ms id key).mp hid
  exact movieKeys_shape m key hk

/-- C3 witness: the key `"genre_action"` is present in the index built from
`[mAlpha]` and decomposes as required. -/
theorem C3_key_scheme_witness :
    buildIndex [mAlpha] "genre_action" ≠ ∅ ∧
    ∃ c ∈ (["title", "overview", "genre", "language", "year", "rating"] : List String),
      ∃ v, "genre_action" = c ++ "_" ++ v :=
  ⟨Finset.ne_empty_of_mem (a := 0) (by decide),
    C3_key_scheme.1 [mAlpha] "genre_action" (Finset.ne_empty_of_mem (a := 0) (by decide))⟩

/-- C4 as amended: an empty read gets no response; otherwise the GET path
runs iff `"GET"` occurs anywhere in the request, the POST path iff
`"POST"` occurs anywhere, the SEARCH path iff the request starts with
`"SEARCH"` (more than one path can run for one request), and a request
matching none of the three is closed without a response. -/
theorem C4_dispatch :
    handleClient none = [] ∧
    ∀ r : String,
      (Resp.getForm ∈ handleClient (some r) ↔ occursIn "GET".data r.data = true) ∧
      (Resp.postResults ∈ handleClient (some r) ↔ occursIn "POST".data r.data = true) ∧
      (Resp.searchResults ∈ handleClient (some r) ↔ begMatch "SEARCH".data r.data = true) ∧
      (handleClient (some r) = [] ↔
        occursIn "GET".data r.data = false ∧ occursIn "POST".data r.data = false ∧
          begMatch "SEARCH".data r.data = false) := by
  refine ⟨rfl, fun r => ?_⟩
  unfold handleClient
  cases hg : occursIn "GET".data r.data <;> cases hp : occursIn "POST".data r.data <;>
    cases hs : begMatch "SEARCH".data r.data <;> simp_all

/-- C4 counterexample: the request `"SEARCH TARGET"` does not start with
`"GET"`, yet the GET path runs (because `"GET"` occurs inside the word
`TARGET` and the code tests `find("GET") != npos`, not a prefix).  This
refutes "the GET path runs iff the request starts with GET". -/
theorem C4_prefix_cex :
    Resp.getForm ∈ handleClient (some "SEARCH TARGET") ∧
    begMatch "GET".data "SEARCH TARGET".data = false :=
  ⟨by decide, by decide⟩

/-- C5: for an indexed item with rating `r`, `0 < r ≤ 10`, the item's id is
in the posting list of `rating_k` exactly for the integers
`⌊r⌋ ≤ k ≤ 10` — in every minimum-rating bucket from the floor of its
rating through 10, and in no bucket below the floor. -/
theorem C5_rating_buckets (ms : List Movie) (id : ℕ) (m : Movie) (k : ℤ)
    (hm : ms.get? id = some m) (h0 : 0 < m.rating) (h10 : m.rating ≤ 10) :
    id ∈ buildIndex ms ("rating_" ++ intToStr k) ↔ (⌊m.rating⌋ ≤ k ∧ k ≤ 10) := by
  rw [mem_buildIndex]
  constructor
  · rintro ⟨m', hm', hk⟩
    rw [hm] at hm'
    have hmm : m = m' := Option.some.inj hm'
    subst hmm
    have := mem_cppRange.mp ((rating_key_mem m k).mp hk)
    rwa [cppTrunc_of_nonneg h0.le] at this
  · rintro ⟨h1, h2⟩
    refine ⟨m, hm, (rating_key_mem m k).mpr (mem_cppRange.mpr ⟨?_, h2⟩)⟩
    rwa [cppTrunc_of_nonneg h0.le]

/-- C5 witness: the item with rating 8.8 is in bucket `rating_9` and not in
bucket `rating_7`. -/
theorem C5_rating_buckets_witness :
    0 ∈ buildIndex [mInception] ("rating_" ++ intToStr 9) ∧
    0 ∉ buildIndex [mInception] ("rating_" ++ intToStr 7) := by
  constructor
  · exact (C5_rating_buckets [mInception] 0 mInception 9 rfl (by decide) (by decide)).mpr
      (by decide)
  · intro hmem
    exact absurd
      ((C5_rating_buckets [mInception] 0 mInception 7 rfl (by decide) (by decide)).mp hmem)
      (by decide)

/-- C6: keyword search over an empty keyword sequence returns the empty
set, and a POST request with no non-empty fields returns the empty result
(the no-matches outcome), over any index. -/
theorem C6_empty_query (idx : Index) :
    searchByKeywords idx [] = ∅ ∧
    postSearch idx { genre := "", year := "", language := "", keywords := "", sort := "" } = ∅ :=
  ⟨rfl, rfl⟩

/-- C7: the short-circuiting keyword search returns exactly the naive
intersection of the per-keyword six-category unions over all keywords, for
every index and keyword sequence; in particular an empty intersection step
makes the final result empty regardless of remaining keywords. -/
theorem C7_short_circuit (idx : Index) (keys : List String) :
    searchByKeywords idx keys = naiveKeywordSearch idx keys := by
  cases keys with
  | nil => rfl
  | cons k rest =>
    unfold searchByKeywords naiveKeywordSearch
    show (let keyResults := unionCats idx (toLower (cleanWord k))
          let cur' := if true = true then keyResults else intersectResults ∅ keyResults
          if setEmpty cur' then cur' else searchByKeywordsLoop idx rest false cur') = _
    simp only [if_true, List.map_cons]
    by_cases h : unionCats idx (toLower (cleanWord k)) = ∅
    · rw [if_pos (by simp [setEmpty, Finset.card_eq_zero, h]), h]
      exact (foldl_inter_empty _).symm
    · rw [if_neg (by simp [setEmpty, Finset.card_eq_zero, h]), searchByKeywordsLoop_eq]

/-- C8: for every valid indexed item, category lookup on year with the
item's rendered year, on language with the item's language, and on genre
with any whitespace word of any of its genre strings all return posting
lists containing the item's identifier. -/
theorem C8_round_trip (ms : List Movie) (id : ℕ) (m : Movie) (g w : String)
    (hm : ms.get? id = some m) (hv : validMovie m = true)
    (hg : g ∈ m.genres) (hw : w ∈ splitWS g) :
    id ∈ searchByCategory (buildIndex ms) "year" (intToStr m.year) ∧
    id ∈ searchByCategory (buildIndex ms) "language" m.language ∧
    id ∈ searchByCategory (buildIndex ms) "genre" w := by
  refine ⟨?_, ?_, ?_⟩
  · show id ∈ buildIndex ms ("year" ++ "_" ++ toLower (intToStr m.year))
    rw [toLower_intToStr, show ("year" : String) ++ "_" = "year_" by decide]
    refine (mem_buildIndex ms id _).mpr ⟨m, hm, ?_⟩
    unfold movieKeys
    simp
  · show id ∈ buildIndex ms ("language" ++ "_" ++ toLower m.language)
    rw [show ("language" : String) ++ "_" = "language_" by decide]
    refine (mem_buildIndex ms id _).mpr ⟨m, hm, ?_⟩
    unfold movieKeys
    simp
  · show id ∈ buildIndex ms ("genre" ++ "_" ++ toLower w)
    rw [show ("genre" : String) ++ "_" = "genre_" by decide]
    refine (mem_buildIndex ms id _).mpr ⟨m, hm, ?_⟩
    unfold movieKeys
    simp only [List.mem_append, List.mem_flatMap, List.mem_map]
    exact Or.inl (Or.inl (Or.inl (Or.inl (Or.inl ⟨g, hg, ⟨w, hw, rfl⟩⟩))))

/-- C8 witness: the Inception item is found under its year 2010, its
language "en", and the genre word "Science" of "Science Fiction". -/
theorem C8_round_trip_witness :
    0 ∈ searchByCategory (buildIndex [mInception]) "year" (intToStr 2010) ∧
    0 ∈ searchByCategory (buildIndex [mInception]) "language" "en" ∧
    0 ∈ searchByCategory (buildIndex [mInception]) "genre" "Science" :=
  C8_round_trip [mInception] 0 mInception "Science Fiction" "Science" rfl (by decide)
    (by decide) (by decide)

/-- C9: a load whose file cannot be opened reports the error and leaves the
whole published state — item collection, derived fact sets and inverted
index — exactly as it was. -/
theorem C9_failed_load (st : ServerState) : loadMovies none st = (st, true) := rfl

/-- C10: after any completed load, every identifier in any posting list of
the rebuilt index is a valid position in the loaded item collection, so
every id a search returns indexes `movies` in bounds. -/
theorem C10_ids_in_bounds (content : String) (st : ServerState) (key : String) (id : ℕ)
    (h : id ∈ ((loadMovies (some content) st).1.index key)) :
    id < (loadMovies (some content) st).1.movies.length := by
  exact buildIndex_lt _ id key h

/-- C10 witness: loading a concrete one-line catalog puts id 0 in the
posting list of `"genre_science"`, and 0 is within the bounds of the loaded
collection. -/
theorem C10_ids_in_bounds_witness :
    0 ∈ (loadMovies (some csvLine1) st0).1.index "genre_science" ∧
    0 < (loadMovies (some csvLine1) st0).1.movies.length :=
  ⟨by decide, C10_ids_in_bounds csvLine1 st0 "genre_science" 0 (by decide)⟩
